import Mathlib

/-!
Shallow embedding of `src/mod_ci/controllers.py` of the sample-platform
repository: the progress-ingestor state machine (`progress_type_request`),
the phase-time accumulator (`set_avg_time`), the whole-test running-average
warm path, the scheduler's lease-expiry and test-selection steps
(`kvm_processor`), the manifest "correct"-reference choice, the completed
outcome computation, the PR-closed cancellation sweep (`start_ci`), and the
equality callback (`equality_type_request` / `progress_reporter`).
-/

namespace SamplePlatform

/-- Modelled from the spec: the Test status enum of `mod_test.models` (that
module is not under `src/`); spec section 4.3 gives the forward ranks
`preparation(0) < building(1) < testing(2) < completed(3)` with `canceled` a
side-channel terminal state outside the forward sequence. -/
inductive TestStatus
  | preparation
  | building
  | testing
  | completed
  | canceled
deriving DecidableEq, Repr

/-- Modelled from the spec: `TestStatus.progress_step` (defined in
`mod_test.models`, not under `src/`) returns the ordinal rank of a status in
the forward sequence; `canceled` lies outside the forward sequence and gets a
value below every forward rank. -/
def progress_step : TestStatus → Int
  | .preparation => 0
  | .building => 1
  | .testing => 2
  | .completed => 3
  | .canceled => -1

/-- One `TestProgress` row as appended by the ingestor:
`TestProgress(test.id, status, message)`. -/
structure ProgressEntry where
  status : TestStatus
  message : String
deriving DecidableEq, Repr

/-- The commit-status states posted to GitHub (class `Status`,
controllers.py lines 48-54). -/
inductive Status
  | pending
  | success
  | error
  | failure
deriving DecidableEq, Repr

/-- Truncation of a rational toward zero: the semantics of Python `int(...)`
applied to a (float) numeric value. -/
def int_trunc (q : ℚ) : ℤ := if 0 ≤ q then ⌊q⌋ else ⌈q⌉

/-- Embedding of `set_avg_time` (controllers.py lines 1119-1150) for one
`(platform, process_type)` key pair.  The state is `none` when no
`avg_<type>_count_<platform>` row exists yet, and `some (count, value)` for
the stored counter and stored average otherwise.  The source reads the stored
average back as `int(float(current_average.value))`, i.e. truncated toward
zero, before applying the running-mean update
`((avg_value * avg_count) + time_taken) / (avg_count + 1)`. -/
def set_avg_time (st : Option (ℕ × ℚ)) (time_taken : ℚ) : ℕ × ℚ :=
  match st with
  | none => (1, time_taken)
  | some (avg_count, current_average) =>
      let avg_value : ℤ := int_trunc current_average
      let new_average : ℚ := ((avg_value : ℚ) * (avg_count : ℚ) + time_taken) / ((avg_count : ℚ) + 1)
      (avg_count + 1, new_average)

/-- Feeding a sequence of samples into one phase-time accumulator, starting
from an absent key (the state before the first sample). -/
def feed_samples (samples : List ℚ) : Option (ℕ × ℚ) :=
  samples.foldl (fun st s => some (set_avg_time st s)) none

theorem int_trunc_intCast (z : ℤ) : int_trunc (z : ℚ) = z := by
  unfold int_trunc
  split
  · exact Int.floor_intCast z
  · exact Int.ceil_intCast z

/-- C2 counterexample: feeding the samples 1, 2, 4 into a fresh phase-time
accumulator stores the average 2, while the true mean (1 + 2 + 4) / 3 = 7/3;
the stored value deviates by 1/3, far beyond floating tolerance, because the
second update truncates the stored average 3/2 down to 1 via
`int(float(current_average.value))`. -/
theorem C2_counterexample :
    feed_samples [1, 2, 4] = some (3, 2) ∧ (2 : ℚ) ≠ (1 + 2 + 4) / 3 := by
  constructor
  · norm_num [feed_samples, set_avg_time, int_trunc]
  · norm_num

/-- C2 (amended): each `set_avg_time` update computes
`new_avg = (trunc(old_avg) * old_count + new_sample) / (old_count + 1)` where
`trunc` is Python `int(...)` truncation toward zero of the previously stored
average; consequently, after feeding integer samples s1..sn, the stored pair is
`(n, sum / n)` exactly whenever every proper prefix mean is an integer (so that
no truncation loss occurs). -/
theorem C2_amended :
    (∀ (c : ℕ) (a s : ℚ),
        set_avg_time (some (c, a)) s
          = (c + 1, ((int_trunc a : ℚ) * (c : ℚ) + s) / ((c : ℚ) + 1)))
    ∧ ∀ (samples : List ℤ), samples ≠ [] →
        (∀ k : ℕ, 1 ≤ k → k < samples.length → (k : ℤ) ∣ (samples.take k).sum) →
        feed_samples (samples.map (Int.cast : ℤ → ℚ))
          = some (samples.length, (samples.sum : ℚ) / (samples.length : ℚ)) := by
  constructor
  · intro c a s
    rfl
  · intro samples
    induction samples using List.reverseRecOn with
    | nil => intro h; exact absurd rfl h
    | append_singleton l a ih =>
      intro _ hdiv
      rcases eq_or_ne l [] with rfl | hl
      · simp [feed_samples, set_avg_time]
      · have hlen : 1 ≤ l.length := List.length_pos.mpr hl
        have hne : (l.length : ℚ) ≠ 0 := Nat.cast_ne_zero.mpr (by omega)
        have hdiv' : ∀ k : ℕ, 1 ≤ k → k < l.length → (k : ℤ) ∣ (l.take k).sum := by
          intro k h1 h2
          have h3 := hdiv k h1 (by simp; omega)
          rwa [List.take_append_of_le_length (le_of_lt h2)] at h3
        have ihl := ih hl hdiv'
        have hdvd : (l.length : ℤ) ∣ l.sum := by
          have h3 := hdiv l.length hlen (by simp)
          rwa [List.take_append_of_le_length le_rfl, List.take_length] at h3
        obtain ⟨z, hz⟩ := hdvd
        have hmean : (l.sum : ℚ) / (l.length : ℚ) = (z : ℚ) := by
          rw [hz]
          push_cast
          exact mul_div_cancel_left₀ _ hne
        have hstep : feed_samples ((l ++ [a]).map (Int.cast : ℤ → ℚ))
            = some (set_avg_time (feed_samples (l.map (Int.cast : ℤ → ℚ))) (a : ℚ)) := by
          unfold feed_samples
          rw [List.map_append, List.foldl_append]
          rfl
        rw [hstep, ihl, hmean]
        simp only [set_avg_time, int_trunc_intCast]
        refine congrArg some (Prod.ext (by simp) ?_)
        show ((z : ℚ) * (l.length : ℚ) + (a : ℚ)) / ((l.length : ℚ) + 1)
          = ((l ++ [a]).sum : ℚ) / (((l ++ [a]).length : ℕ) : ℚ)
        rw [List.sum_append, List.length_append, hz]
        push_cast
        simp only [List.map_cons, List.map_nil, List.sum_cons, List.sum_nil,
          List.length_cons, List.length_nil]
        push_cast
        ring_nf

/-- One `Kvm` lease row (`mod_ci.models.Kvm`): the VM bound to a test, the
lease-start timestamp, and the two optional phase-transition timestamps.
Times are integers (seconds). -/
structure KvmEntry where
  test_id : ℕ
  timestamp : ℤ
  timestamp_prep_finished : Option ℤ
  timestamp_build_finished : Option ℤ
deriving DecidableEq, Repr

/-- Result of one `progress_type_request` call: the returned boolean, the
test's progress list after the call, the lease row after the call, and the
samples `(key, seconds)` fed to `set_avg_time` during the call. -/
structure ProgressResult where
  accepted : Bool
  progress : List ProgressEntry
  lease : Option KvmEntry
  samples : List (String × ℤ)
deriving DecidableEq, Repr

/-- Embedding of `progress_type_request` (controllers.py lines 783-836), the
state-machine core of the progress ingestor, up to and including the event
append.  `none` models the unguarded `None` dereference: on genuine forward
progress to `building` the code runs `kvm_entry.timestamp_prep_finished = ...`
on the result of `Kvm.query...first()` without a `None` check, and on forward
progress to `testing` it additionally subtracts
`kvm_entry.timestamp_prep_finished`, which may itself be `None`.  The
source's coercion assignment (status set to `canceled` with message
"Duplicate Entries" when the reported rank is strictly below the last
recorded rank) together with the subsequent `last_status < current_status`
test yields the three disjoint rank branches spelled out below. -/
def progress_type_request (progress : List ProgressEntry) (lease : Option KvmEntry)
    (now : ℤ) (reported : TestStatus) (msg : String) : Option ProgressResult :=
  match progress.getLast? with
  | none => some ⟨true, progress ++ [⟨reported, msg⟩], lease, []⟩
  | some last =>
    if progress_step last.status = progress_step TestStatus.completed ∨
        progress_step last.status = progress_step TestStatus.canceled then
      some ⟨false, progress, lease, []⟩
    else if progress_step reported < progress_step last.status then
      some ⟨true, progress ++ [⟨TestStatus.canceled, "Duplicate Entries"⟩], lease, []⟩
    else if progress_step last.status < progress_step reported then
      if reported = TestStatus.building then
        match lease with
        | none => none
        | some kvm_entry =>
          some ⟨true, progress ++ [⟨reported, msg⟩],
            some { kvm_entry with timestamp_prep_finished := some now },
            [("prep", now - kvm_entry.timestamp)]⟩
      else if reported = TestStatus.testing then
        match lease with
        | none => none
        | some kvm_entry =>
          match kvm_entry.timestamp_prep_finished with
          | none => none
          | some prep_finished =>
            some ⟨true, progress ++ [⟨reported, msg⟩],
              some { kvm_entry with timestamp_build_finished := some now },
              [("build", now - prep_finished)]⟩
      else
        some ⟨true, progress ++ [⟨reported, msg⟩], lease, []⟩
    else
      some ⟨true, progress ++ [⟨reported, msg⟩], lease, []⟩

/-- Processing a sequence of timestamped progress reports for one test.  A
call that errors (lease dereference failure) appends nothing and leaves the
state unchanged; a rejected or recorded call updates the state as the source
commits it. -/
def run_progress (reports : List (ℤ × TestStatus × String))
    (st : List ProgressEntry × Option KvmEntry) : List ProgressEntry × Option KvmEntry :=
  match reports with
  | [] => st
  | (now, s, m) :: rest =>
    match progress_type_request st.1 st.2 now s m with
    | none => run_progress rest st
    | some r => run_progress rest (r.progress, r.lease)

/-- The persisted status sequence is non-decreasing in rank, except that an
entry recorded as `canceled` may follow any rank. -/
def rank_chain (progress : List ProgressEntry) : Prop :=
  List.Chain' (fun a b => progress_step a.status ≤ progress_step b.status
    ∨ b.status = TestStatus.canceled) progress

theorem progress_step_inj {a b : TestStatus} (h : progress_step a = progress_step b) :
    a = b := by
  cases a <;> cases b <;> simp_all [progress_step]

theorem rank_chain_append (p : List ProgressEntry) (e : ProgressEntry) (h : rank_chain p)
    (hlast : ∀ last, p.getLast? = some last →
      progress_step last.status ≤ progress_step e.status ∨ e.status = TestStatus.canceled) :
    rank_chain (p ++ [e]) := by
  unfold rank_chain at h ⊢
  rw [List.chain'_append]
  refine ⟨h, List.chain'_singleton e, ?_⟩
  intro x hx y hy
  have hy2 : e = y := by simpa using hy
  subst hy2
  exact hlast x (Option.mem_def.mp hx)

theorem step_terminal (p : List ProgressEntry) (last : ProgressEntry) (l : Option KvmEntry)
    (n : ℤ) (s : TestStatus) (m : String) (hp : p.getLast? = some last)
    (ht : last.status = TestStatus.completed ∨ last.status = TestStatus.canceled) :
    progress_type_request p l n s m = some ⟨false, p, l, []⟩ := by
  unfold progress_type_request
  simp only [hp]
  have hcond : progress_step last.status = progress_step TestStatus.completed
      ∨ progress_step last.status = progress_step TestStatus.canceled := by
    rcases ht with h | h <;> simp [h]
  rw [if_pos hcond]

theorem step_duplicate (p : List ProgressEntry) (last : ProgressEntry) (l : Option KvmEntry)
    (n : ℤ) (s : TestStatus) (m : String) (hp : p.getLast? = some last)
    (hterm : ¬(last.status = TestStatus.completed ∨ last.status = TestStatus.canceled))
    (hlt : progress_step s < progress_step last.status) :
    progress_type_request p l n s m
      = some ⟨true, p ++ [⟨TestStatus.canceled, "Duplicate Entries"⟩], l, []⟩ := by
  unfold progress_type_request
  simp only [hp]
  have hcond : ¬(progress_step last.status = progress_step TestStatus.completed
      ∨ progress_step last.status = progress_step TestStatus.canceled) := by
    intro h
    exact hterm (h.imp (fun h2 => progress_step_inj h2) (fun h2 => progress_step_inj h2))
  rw [if_neg hcond, if_pos hlt]

theorem step_chain (p : List ProgressEntry) (l : Option KvmEntry) (n : ℤ) (s : TestStatus)
    (m : String) (r : ProgressResult) (h : rank_chain p)
    (hr : progress_type_request p l n s m = some r) : rank_chain r.progress := by
  unfold progress_type_request at hr
  cases hp : p.getLast? with
  | none =>
    simp only [hp] at hr
    cases hr
    have hnil : p = [] := List.getLast?_eq_none_iff.mp hp
    subst hnil
    simp [rank_chain]
  | some last =>
    simp only [hp] at hr
    by_cases hterm : progress_step last.status = progress_step TestStatus.completed
        ∨ progress_step last.status = progress_step TestStatus.canceled
    · rw [if_pos hterm] at hr
      cases hr
      exact h
    · rw [if_neg hterm] at hr
      by_cases hdup : progress_step s < progress_step last.status
      · rw [if_pos hdup] at hr
        cases hr
        exact rank_chain_append p _ h (fun u hu => by
          rw [hp] at hu; cases hu; exact Or.inr rfl)
      · rw [if_neg hdup] at hr
        have hle : progress_step last.status ≤ progress_step s := le_of_not_lt hdup
        have happ : r.progress = p ∨ r.progress = p ++ [⟨s, m⟩] := by
          by_cases hfwd : progress_step last.status < progress_step s
          · rw [if_pos hfwd] at hr
            by_cases hb : s = TestStatus.building
            · rw [if_pos hb] at hr
              cases l with
              | none => exact absurd hr (by simp)
              | some kvm_entry =>
                cases hr
                exact Or.inr rfl
            · rw [if_neg hb] at hr
              by_cases hts : s = TestStatus.testing
              · rw [if_pos hts] at hr
                cases l with
                | none => exact absurd hr (by simp)
                | some kvm_entry =>
                  cases hpf : kvm_entry.timestamp_prep_finished with
                  | none => simp [hpf] at hr
                  | some prep_finished =>
                    simp only [hpf] at hr
                    cases hr
                    exact Or.inr rfl
              · rw [if_neg hts] at hr
                cases hr
                exact Or.inr rfl
          · rw [if_neg hfwd] at hr
            cases hr
            exact Or.inr rfl
        rcases happ with hpr | hpr
        · rw [hpr]; exact h
        · rw [hpr]
          exact rank_chain_append p _ h (fun u hu => by
            rw [hp] at hu; cases hu; exact Or.inl hle)

theorem run_progress_chain (reports : List (ℤ × TestStatus × String))
    (st : List ProgressEntry × Option KvmEntry) (h : rank_chain st.1) :
    rank_chain (run_progress reports st).1 := by
  induction reports generalizing st with
  | nil => simpa [run_progress] using h
  | cons rep rest ih =>
    obtain ⟨now, s, m⟩ := rep
    rw [run_progress]
    cases hr : progress_type_request st.1 st.2 now s m with
    | none => exact ih st h
    | some r => exact ih (r.progress, r.lease) (step_chain st.1 st.2 now s m r h hr)

theorem run_progress_frozen (reports : List (ℤ × TestStatus × String))
    (st : List ProgressEntry × Option KvmEntry) (last : ProgressEntry)
    (hp : st.1.getLast? = some last)
    (ht : last.status = TestStatus.completed ∨ last.status = TestStatus.canceled) :
    run_progress reports st = st := by
  induction reports generalizing st with
  | nil => rw [run_progress]
  | cons rep rest ih =>
    obtain ⟨now, s, m⟩ := rep
    rw [run_progress]
    rw [step_terminal st.1 last st.2 now s m hp ht]
    exact ih st hp

/-- C1: for every sequence of progress reports processed by the ingestor
state machine, the persisted status sequence is non-decreasing in rank except
that a coerced entry is recorded as canceled; a report whose rank is strictly
below the last recorded rank is still recorded, but as `canceled` with message
"Duplicate Entries"; and once the last recorded status is `completed` or
`canceled`, every further report is rejected with no event appended and the
caller signaled failure (and the state never changes again). -/
theorem C1_progress_state_machine :
    (∀ (reports : List (ℤ × TestStatus × String)) (lease : Option KvmEntry),
        rank_chain (run_progress reports ([], lease)).1)
    ∧ (∀ (progress : List ProgressEntry) (lease : Option KvmEntry) (now : ℤ)
        (s : TestStatus) (m : String) (last : ProgressEntry),
        progress.getLast? = some last →
        ¬(last.status = TestStatus.completed ∨ last.status = TestStatus.canceled) →
        progress_step s < progress_step last.status →
        progress_type_request progress lease now s m
          = some ⟨true, progress ++ [⟨TestStatus.canceled, "Duplicate Entries"⟩], lease, []⟩)
    ∧ (∀ (progress : List ProgressEntry) (lease : Option KvmEntry) (now : ℤ)
        (s : TestStatus) (m : String) (last : ProgressEntry),
        progress.getLast? = some last →
        (last.status = TestStatus.completed ∨ last.status = TestStatus.canceled) →
        progress_type_request progress lease now s m = some ⟨false, progress, lease, []⟩)
    ∧ (∀ (reports : List (ℤ × TestStatus × String))
        (st : List ProgressEntry × Option KvmEntry) (last : ProgressEntry),
        st.1.getLast? = some last →
        (last.status = TestStatus.completed ∨ last.status = TestStatus.canceled) →
        run_progress reports st = st) := by
  refine ⟨?_, ?_, ?_, ?_⟩
  · intro reports lease
    exact run_progress_chain reports ([], lease) (by simp [rank_chain])
  · intro progress lease now s m last hp hterm hlt
    exact step_duplicate progress last lease now s m hp hterm hlt
  · intro progress lease now s m last hp ht
    exact step_terminal progress last lease now s m hp ht
  · intro reports st last hp ht
    exact run_progress_frozen reports st last hp ht

theorem C1_witness :
    progress_type_request [⟨TestStatus.testing, "t"⟩] none 0 TestStatus.building "b"
      = some ⟨true, [⟨TestStatus.testing, "t"⟩,
          ⟨TestStatus.canceled, "Duplicate Entries"⟩], none, []⟩ :=
  C1_progress_state_machine.2.1 [⟨TestStatus.testing, "t"⟩] none 0 TestStatus.building "b"
    ⟨TestStatus.testing, "t"⟩ rfl (by decide) (by decide)

/-- C8: on genuine forward progress (last recorded rank strictly below the
reported rank) to `building` or `testing`, the ingestor dereferences the
lease lookup without a `None` check: with no lease present the call is an
error (`none` in the total embedding), so the call can succeed only when a
lease bound to the test exists. -/
theorem C8_lease_precondition :
    (∀ (progress : List ProgressEntry) (now : ℤ) (s : TestStatus) (m : String)
        (last : ProgressEntry),
        progress.getLast? = some last →
        ¬(last.status = TestStatus.completed ∨ last.status = TestStatus.canceled) →
        progress_step last.status < progress_step s →
        (s = TestStatus.building ∨ s = TestStatus.testing) →
        progress_type_request progress none now s m = none)
    ∧ (∀ (progress : List ProgressEntry) (lease : Option KvmEntry) (now : ℤ)
        (s : TestStatus) (m : String) (last : ProgressEntry) (r : ProgressResult),
        progress.getLast? = some last →
        progress_step last.status < progress_step s →
        (s = TestStatus.building ∨ s = TestStatus.testing) →
        progress_type_request progress lease now s m = some r →
        r.accepted = true →
        lease.isSome) := by
  have part1 : ∀ (progress : List ProgressEntry) (now : ℤ) (s : TestStatus) (m : String)
      (last : ProgressEntry),
      progress.getLast? = some last →
      ¬(last.status = TestStatus.completed ∨ last.status = TestStatus.canceled) →
      progress_step last.status < progress_step s →
      (s = TestStatus.building ∨ s = TestStatus.testing) →
      progress_type_request progress none now s m = none := by
    intro progress now s m last hp hterm hfwd hs
    unfold progress_type_request
    simp only [hp]
    have hcond : ¬(progress_step last.status = progress_step TestStatus.completed
        ∨ progress_step last.status = progress_step TestStatus.canceled) := by
      intro h
      exact hterm (h.imp (fun h2 => progress_step_inj h2) (fun h2 => progress_step_inj h2))
    have hnd : ¬ progress_step s < progress_step last.status := not_lt_of_gt hfwd
    rw [if_neg hcond, if_neg hnd, if_pos hfwd]
    rcases hs with rfl | rfl
    · rw [if_pos rfl]
    · have hb : ¬ (TestStatus.testing = TestStatus.building) := by decide
      rw [if_neg hb, if_pos rfl]
  refine ⟨part1, ?_⟩
  intro progress lease now s m last r hp hfwd hs hr hacc
  cases lease with
  | some kvm_entry => simp
  | none =>
    by_cases hterm : last.status = TestStatus.completed ∨ last.status = TestStatus.canceled
    · rw [step_terminal progress last none now s m hp hterm] at hr
      cases hr
      simp at hacc
    · rw [part1 progress now s m last hp hterm hfwd hs] at hr
      exact absurd hr (by simp)

theorem C8_witness :
    progress_type_request [⟨TestStatus.preparation, "p"⟩] none 0 TestStatus.building "b"
      = none :=
  C8_lease_precondition.1 [⟨TestStatus.preparation, "p"⟩] 0 TestStatus.building "b"
    ⟨TestStatus.preparation, "p"⟩ rfl (by decide) (by decide) (Or.inl rfl)

theorem C2_witness :
    feed_samples (([2, 4] : List ℤ).map (Int.cast : ℤ → ℚ))
      = some ((([2, 4] : List ℤ)).length,
          ((([2, 4] : List ℤ)).sum : ℚ) / ((([2, 4] : List ℤ)).length : ℚ)) :=
  C2_amended.2 [2, 4] (by decide)
    (by
      intro k h1 h2
      simp only [List.length_cons, List.length_nil] at h2
      have hk : k = 1 := by omega
      subst hk
      decide)

/-- The two operating-system targets (`mod_test.models.TestPlatform`). -/
inductive TestPlatform
  | linux
  | windows
deriving DecidableEq, Repr

/-- The two kinds of test (`mod_test.models.TestType`). -/
inductive TestType
  | commit
  | pull_request
deriving DecidableEq, Repr

/-- A `Test` row (`mod_test.models.Test`, fields as used by the scheduler):
identity, platform, kind, owning fork, and pull-request number. -/
structure TestRow where
  id : ℕ
  platform : TestPlatform
  test_type : TestType
  fork_id : ℕ
  pr_nr : ℕ
deriving DecidableEq, Repr

/-- State acted on by the running-VM branch of `kvm_processor`
(controllers.py lines 154-175): the global progress-event log as
`(test_id, entry)` pairs, the lease row for this VM name, and whether the VM
is powered on. -/
structure VmCycleState where
  events : List (ℕ × ProgressEntry)
  lease : Option KvmEntry
  vm_on : Bool
deriving DecidableEq, Repr

/-- Embedding of the running-VM branch of `kvm_processor` (controllers.py
lines 154-175).  With the VM powered on and a live lease: if
`now - status.timestamp >= timedelta(minutes=max_runtime)` the code appends a
`canceled` "Runtime exceeded" progress event for the leased test, deletes the
lease, and destroys the VM (`destroy_ok` is whether `vm.destroy()`
succeeds); otherwise it returns with nothing changed.  With the VM on but no
lease, it destroys the orphaned VM and proceeds. -/
def kvm_expiry_step (now : ℤ) (max_runtime : ℤ) (destroy_ok : Bool)
    (st : VmCycleState) : VmCycleState :=
  if st.vm_on then
    match st.lease with
    | some lease_entry =>
      if 60 * max_runtime ≤ now - lease_entry.timestamp then
        { events := st.events ++
            [(lease_entry.test_id, ⟨TestStatus.canceled, "Runtime exceeded"⟩)],
          lease := none,
          vm_on := !destroy_ok }
      else st
    | none => { st with vm_on := !destroy_ok }
  else st

/-- C3: when the scheduling pass finds the VM powered on with a live lease,
then if the lease age has reached `maxRuntimeMinutes` (in seconds:
`60 * max_runtime`), the pass appends a canceled "Runtime exceeded" event to
the leased test, deletes the lease and powers the VM off; if the lease age is
below the threshold the pass is a no-op leaving the whole state untouched. -/
theorem C3_lease_expiry (now max_runtime : ℤ) (st : VmCycleState)
    (lease_entry : KvmEntry) (hon : st.vm_on = true) (hl : st.lease = some lease_entry) :
    (60 * max_runtime ≤ now - lease_entry.timestamp →
       kvm_expiry_step now max_runtime true st =
         ⟨st.events ++ [(lease_entry.test_id, ⟨TestStatus.canceled, "Runtime exceeded"⟩)],
          none, false⟩)
    ∧ (now - lease_entry.timestamp < 60 * max_runtime →
       kvm_expiry_step now max_runtime true st = st) := by
  constructor
  · intro hexp
    unfold kvm_expiry_step
    rw [hon]
    simp only [hl, if_true]
    rw [if_pos hexp]
    rfl
  · intro hlive
    unfold kvm_expiry_step
    rw [hon]
    simp only [hl, if_true]
    rw [if_neg (not_le_of_lt hlive)]

theorem C3_witness :
    kvm_expiry_step 7200 120 true ⟨[], some ⟨7, 0, none, none⟩, true⟩
      = ⟨[(7, ⟨TestStatus.canceled, "Runtime exceeded"⟩)], none, false⟩ :=
  (C3_lease_expiry 7200 120 ⟨[], some ⟨7, 0, none, none⟩, true⟩ ⟨7, 0, none, none⟩
    rfl rfl).1 (by decide)

/-- Test ids having a terminal progress record: the `finished_tests`
subquery of `kvm_processor` (controllers.py lines 185-187), selecting the
`test_id` of every `TestProgress` row whose status is `canceled` or
`completed`. -/
def finished_ids (events : List (ℕ × ProgressEntry)) : List ℕ :=
  (events.filter fun e => decide (e.2.status = TestStatus.completed
    ∨ e.2.status = TestStatus.canceled)).map Prod.fst

/-- The row with the smallest id: `order_by(Test.id.asc()).first()`. -/
def oldest : List TestRow → Option TestRow
  | [] => none
  | t :: ts =>
    match oldest ts with
    | none => some t
    | some u => if t.id ≤ u.id then some t else some u

/-- Tests eligible for selection: on this platform and with no terminal
progress record (`Test.id.notin_(finished_tests), Test.platform == platform`). -/
def eligible_tests (tests : List TestRow) (events : List (ℕ × ProgressEntry))
    (platform : TestPlatform) : List TestRow :=
  tests.filter fun t => decide (t.platform = platform ∧ t.id ∉ finished_ids events)

/-- Embedding of the test-selection step of `kvm_processor` (controllers.py
lines 184-200): first the oldest eligible test belonging to the canonical
fork (`Test.fork_id == fork.id`), else the oldest eligible test of any fork,
else nothing to run. -/
def select_test (tests : List TestRow) (events : List (ℕ × ProgressEntry))
    (platform : TestPlatform) (main_fork_id : ℕ) : Option TestRow :=
  let eligible := eligible_tests tests events platform
  match oldest (eligible.filter fun t => decide (t.fork_id = main_fork_id)) with
  | some t => some t
  | none => oldest eligible

theorem oldest_eq_none_iff (l : List TestRow) : oldest l = none ↔ l = [] := by
  cases l with
  | nil => simp [oldest]
  | cons a ts =>
    constructor
    · intro h
      exfalso
      simp only [oldest] at h
      cases h2 : oldest ts with
      | none =>
        simp only [h2] at h
        exact Option.noConfusion h
      | some v =>
        simp only [h2] at h
        by_cases hle : a.id ≤ v.id
        · rw [if_pos hle] at h
          exact Option.noConfusion h
        · rw [if_neg hle] at h
          exact Option.noConfusion h
    · intro h
      exact absurd h (by simp)

theorem oldest_mem (l : List TestRow) (t : TestRow) (h : oldest l = some t) : t ∈ l := by
  induction l generalizing t with
  | nil => simp [oldest] at h
  | cons a ts ih =>
    simp only [oldest] at h
    cases h2 : oldest ts with
    | none =>
      simp only [h2] at h
      injection h with h3
      rw [← h3]
      exact List.mem_cons_self a ts
    | some u =>
      simp only [h2] at h
      by_cases hle : a.id ≤ u.id
      · rw [if_pos hle] at h
        injection h with h3
        rw [← h3]
        exact List.mem_cons_self a ts
      · rw [if_neg hle] at h
        injection h with h3
        rw [← h3]
        exact List.mem_cons_of_mem a (ih u h2)

theorem oldest_min (l : List TestRow) (t : TestRow) (h : oldest l = some t) :
    ∀ u ∈ l, t.id ≤ u.id := by
  induction l generalizing t with
  | nil => simp [oldest] at h
  | cons a ts ih =>
    intro u hu
    simp only [oldest] at h
    cases h2 : oldest ts with
    | none =>
      simp only [h2] at h
      injection h with h3
      rw [← h3]
      have hts : ts = [] := (oldest_eq_none_iff ts).mp h2
      subst hts
      rcases List.mem_cons.mp hu with heq | hu2
      · rw [heq]
      · exact absurd hu2 (by simp)
    | some v =>
      simp only [h2] at h
      rcases List.mem_cons.mp hu with heq | hu2
      · rw [heq]
        by_cases hle : a.id ≤ v.id
        · rw [if_pos hle] at h
          injection h with h3
          rw [← h3]
        · rw [if_neg hle] at h
          injection h with h3
          rw [← h3]
          exact le_of_not_le hle
      · by_cases hle : a.id ≤ v.id
        · rw [if_pos hle] at h
          injection h with h3
          rw [← h3]
          exact le_trans hle (ih v h2 u hu2)
        · rw [if_neg hle] at h
          injection h with h3
          rw [← h3]
          exact ih v h2 u hu2

theorem select_test_of_main_none (tests : List TestRow) (events : List (ℕ × ProgressEntry))
    (platform : TestPlatform) (main_fork_id : ℕ)
    (h : oldest ((eligible_tests tests events platform).filter
      fun t => decide (t.fork_id = main_fork_id)) = none) :
    select_test tests events platform main_fork_id
      = oldest (eligible_tests tests events platform) := by
  unfold select_test
  simp only [h]

theorem select_test_of_main_some (tests : List TestRow) (events : List (ℕ × ProgressEntry))
    (platform : TestPlatform) (main_fork_id : ℕ) (t0 : TestRow)
    (h : oldest ((eligible_tests tests events platform).filter
      fun t => decide (t.fork_id = main_fork_id)) = some t0) :
    select_test tests events platform main_fork_id = some t0 := by
  unfold select_test
  simp only [h]

theorem C7_selection (tests : List TestRow) (events : List (ℕ × ProgressEntry))
    (platform : TestPlatform) (main_fork_id : ℕ) :
    (select_test tests events platform main_fork_id = none
       ↔ eligible_tests tests events platform = [])
    ∧ ∀ t : TestRow, select_test tests events platform main_fork_id = some t →
        t ∈ eligible_tests tests events platform
        ∧ ((∃ u ∈ eligible_tests tests events platform, u.fork_id = main_fork_id) →
            t.fork_id = main_fork_id ∧
            ∀ u ∈ eligible_tests tests events platform,
              u.fork_id = main_fork_id → t.id ≤ u.id)
        ∧ ((∀ u ∈ eligible_tests tests events platform, u.fork_id ≠ main_fork_id) →
            ∀ u ∈ eligible_tests tests events platform, t.id ≤ u.id) := by
  cases hM : oldest ((eligible_tests tests events platform).filter
      fun t => decide (t.fork_id = main_fork_id)) with
  | none =>
    have hsel := select_test_of_main_none tests events platform main_fork_id hM
    have hMnil := (oldest_eq_none_iff _).mp hM
    rw [hsel]
    constructor
    · exact oldest_eq_none_iff _
    · intro t ht
      have htE : t ∈ eligible_tests tests events platform := oldest_mem _ t ht
      refine ⟨htE, ?_, ?_⟩
      · rintro ⟨u, huE, huf⟩
        have humem : u ∈ (eligible_tests tests events platform).filter
            fun t => decide (t.fork_id = main_fork_id) :=
          List.mem_filter.mpr ⟨huE, by simpa using huf⟩
        rw [hMnil] at humem
        exact absurd humem (by simp)
      · intro _ u huE
        exact oldest_min _ t ht u huE
  | some t0 =>
    have hsel := select_test_of_main_some tests events platform main_fork_id t0 hM
    have ht0M := oldest_mem _ t0 hM
    have ht0E : t0 ∈ eligible_tests tests events platform :=
      (List.mem_filter.mp ht0M).1
    have ht0f : t0.fork_id = main_fork_id := by
      have h2 := (List.mem_filter.mp ht0M).2
      simpa using h2
    rw [hsel]
    constructor
    · constructor
      · intro h
        exact Option.noConfusion h
      · intro h
        rw [h] at ht0E
        exact absurd ht0E (by simp)
    · intro t ht
      have htt0 : t0 = t := by
        injection ht
      subst htt0
      refine ⟨ht0E, ?_, ?_⟩
      · intro _
        refine ⟨ht0f, ?_⟩
        intro u huE huf
        exact oldest_min _ t0 hM u (List.mem_filter.mpr ⟨huE, by simpa using huf⟩)
      · intro hnone
        exact absurd ht0f (hnone t0 ht0E)

theorem C7_witness :
    (⟨3, TestPlatform.linux, TestType.commit, 1, 0⟩ : TestRow)
        ∈ eligible_tests [⟨3, TestPlatform.linux, TestType.commit, 1, 0⟩] [] TestPlatform.linux
      ∧ ((∃ u ∈ eligible_tests [⟨3, TestPlatform.linux, TestType.commit, 1, 0⟩] []
            TestPlatform.linux, u.fork_id = 1) →
          (⟨3, TestPlatform.linux, TestType.commit, 1, 0⟩ : TestRow).fork_id = 1 ∧
          ∀ u ∈ eligible_tests [⟨3, TestPlatform.linux, TestType.commit, 1, 0⟩] []
            TestPlatform.linux, u.fork_id = 1 →
            (⟨3, TestPlatform.linux, TestType.commit, 1, 0⟩ : TestRow).id ≤ u.id)
      ∧ ((∀ u ∈ eligible_tests [⟨3, TestPlatform.linux, TestType.commit, 1, 0⟩] []
            TestPlatform.linux, u.fork_id ≠ 1) →
          ∀ u ∈ eligible_tests [⟨3, TestPlatform.linux, TestType.commit, 1, 0⟩] []
            TestPlatform.linux,
            (⟨3, TestPlatform.linux, TestType.commit, 1, 0⟩ : TestRow).id ≤ u.id) :=
  (C7_selection [⟨3, TestPlatform.linux, TestType.commit, 1, 0⟩] [] TestPlatform.linux 1).2
    ⟨3, TestPlatform.linux, TestType.commit, 1, 0⟩ rfl

/-- A `TestResultFile` row (`mod_test.models.TestResultFile`): owning test,
regression test case, output artifact, expected hash, and the "got" hash
(`none` means the produced file matched the expected one). -/
structure TestResultFileRow where
  test_id : ℕ
  regression_test_id : ℕ
  regression_test_output_id : ℕ
  expected : String
  got : Option String
deriving DecidableEq, Repr

/-- The "correct" reference written into a manifest file node: either the
case's canonical correct artifact (`output_file.filename_correct`) or the
prior baseline run's artifact named by a got hash
(`output_file.create_correct_filename(got)`). -/
inductive CorrectRef
  | canonical
  | baselineArtifact (got : String)
deriving DecidableEq, Repr

/-- Embedding of the manifest "correct"-reference choice of `kvm_processor`
(controllers.py lines 266-287): among the result files of the pinned baseline
test (`last_commit.id`) for this regression test, the code looks for a row
for this output artifact whose `got` is NOT null; if one exists the correct
reference is built from that row's got hash, otherwise the canonical correct
file is used. -/
def correct_reference (files : List TestResultFileRow) (last_commit_id : ℕ)
    (regression_test_id : ℕ) (output_id : ℕ) : CorrectRef :=
  let last_files := files.filter fun f =>
    decide (f.test_id = last_commit_id ∧ f.regression_test_id = regression_test_id)
  match (last_files.filter fun f =>
      decide (f.regression_test_output_id = output_id ∧ f.got.isSome)).head? with
  | none => CorrectRef.canonical
  | some f => CorrectRef.baselineArtifact (f.got.getD "")

/-- C4 counterexample: the baseline test 1 produced NO passing file (null
got) for case 2 / output 3 — its only result file has a non-null got — yet
the manifest's correct reference is the prior run's artifact, not the
canonical one; per the claim it would have to be canonical. -/
theorem C4_counterexample :
    (¬ ∃ f ∈ [(⟨1, 2, 3, "exp", some "abc"⟩ : TestResultFileRow)],
        f.test_id = 1 ∧ f.regression_test_id = 2 ∧ f.regression_test_output_id = 3
          ∧ f.got = none)
    ∧ correct_reference [⟨1, 2, 3, "exp", some "abc"⟩] 1 2 3
        = CorrectRef.baselineArtifact "abc" := by
  constructor
  · rintro ⟨f, hf, h1, h2, h3, h4⟩
    simp at hf
    rw [hf] at h4
    exact Option.noConfusion h4
  · rfl

/-- C4 (amended): the manifest's correct reference is the prior baseline
run's artifact exactly when the pinned baseline run recorded a result file
with a NON-null got for that case/output (a recorded mismatch whose produced
file is adopted as the new baseline); it is the canonical artifact exactly
when every matching baseline result file has null got (i.e. passed). -/
theorem C4_amended (files : List TestResultFileRow) (last_commit_id : ℕ)
    (regression_test_id : ℕ) (output_id : ℕ) :
    (correct_reference files last_commit_id regression_test_id output_id
        = CorrectRef.canonical
      ↔ ∀ f ∈ files, f.test_id = last_commit_id → f.regression_test_id = regression_test_id →
          f.regression_test_output_id = output_id → f.got = none)
    ∧ ∀ g : String,
        correct_reference files last_commit_id regression_test_id output_id
          = CorrectRef.baselineArtifact g →
        ∃ f ∈ files, f.test_id = last_commit_id ∧ f.regression_test_id = regression_test_id
          ∧ f.regression_test_output_id = output_id ∧ f.got = some g := by
  unfold correct_reference
  constructor
  · cases hh : ((files.filter fun f =>
        decide (f.test_id = last_commit_id ∧ f.regression_test_id = regression_test_id)).filter
          fun f => decide (f.regression_test_output_id = output_id ∧ f.got.isSome)).head? with
    | none =>
      simp only [hh]
      constructor
      · intro _ f hf h1 h2 h3
        have hnil := List.head?_eq_none_iff.mp hh
        by_contra hgot
        have hgot2 : f.got.isSome := Option.isSome_iff_ne_none.mpr hgot
        have hmem : f ∈ ((files.filter fun f =>
            decide (f.test_id = last_commit_id ∧ f.regression_test_id = regression_test_id)).filter
              fun f => decide (f.regression_test_output_id = output_id ∧ f.got.isSome)) := by
          refine List.mem_filter.mpr ⟨List.mem_filter.mpr ⟨hf, ?_⟩, ?_⟩
          · simp [h1, h2]
          · simp [h3, hgot2]
        rw [hnil] at hmem
        exact absurd hmem (by simp)
      · intro _
        trivial
    | some f0 =>
      simp only [hh]
      constructor
      · intro h
        exact absurd h (by simp)
      · intro hall
        exfalso
        have hf0 : f0 ∈ ((files.filter fun f =>
            decide (f.test_id = last_commit_id ∧ f.regression_test_id = regression_test_id)).filter
              fun f => decide (f.regression_test_output_id = output_id ∧ f.got.isSome)) :=
          List.mem_of_mem_head? (by rw [hh]; simp)
        have hf0a := List.mem_filter.mp hf0
        have hf0b := List.mem_filter.mp hf0a.1
        have hc1 : f0.test_id = last_commit_id ∧ f0.regression_test_id = regression_test_id := by
          simpa using hf0b.2
        have hc2 : f0.regression_test_output_id = output_id ∧ f0.got.isSome := by
          simpa using hf0a.2
        have hnone := hall f0 hf0b.1 hc1.1 hc1.2 hc2.1
        rw [hnone] at hc2
        exact absurd hc2.2 (by simp)
  · intro g hg
    cases hh : ((files.filter fun f =>
        decide (f.test_id = last_commit_id ∧ f.regression_test_id = regression_test_id)).filter
          fun f => decide (f.regression_test_output_id = output_id ∧ f.got.isSome)).head? with
    | none =>
      simp only [hh] at hg
      exact absurd hg (by simp)
    | some f0 =>
      simp only [hh] at hg
      have hf0 : f0 ∈ ((files.filter fun f =>
          decide (f.test_id = last_commit_id ∧ f.regression_test_id = regression_test_id)).filter
            fun f => decide (f.regression_test_output_id = output_id ∧ f.got.isSome)) :=
        List.mem_of_mem_head? (by rw [hh]; simp)
      have hf0a := List.mem_filter.mp hf0
      have hf0b := List.mem_filter.mp hf0a.1
      have hc1 : f0.test_id = last_commit_id ∧ f0.regression_test_id = regression_test_id := by
        simpa using hf0b.2
      have hc2 : f0.regression_test_output_id = output_id ∧ f0.got.isSome := by
        simpa using hf0a.2
      obtain ⟨g0, hg0⟩ := Option.isSome_iff_exists.mp hc2.2
      refine ⟨f0, hf0b.1, hc1.1, hc1.2, hc2.1, ?_⟩
      injection hg with h4
      rw [hg0] at h4 ⊢
      simp at h4
      rw [h4]

theorem C4_witness :
    ∃ f ∈ [(⟨1, 2, 3, "exp", some "h77"⟩ : TestResultFileRow)],
      f.test_id = 1 ∧ f.regression_test_id = 2 ∧ f.regression_test_output_id = 3
        ∧ f.got = some "h77" :=
  (C4_amended [⟨1, 2, 3, "exp", some "h77"⟩] 1 2 3).2 "h77" rfl

/-- A `TestResult` row (`mod_test.models.TestResult`): owning test,
regression test case, observed exit code, and expected exit code. -/
structure TestResultRow where
  test_id : ℕ
  regression_test_id : ℕ
  exit_code : ℤ
  expected_rc : ℤ
deriving DecidableEq, Repr

/-- A `RegressionTest` row (`mod_regression.models.RegressionTest`, fields as
used by the outcome computation): id and expected exit code. -/
structure RegressionTestRow where
  id : ℕ
  expected_rc : ℤ
deriving DecidableEq, Repr

/-- The `crashes` count of `progress_type_request` (controllers.py lines
937-941): results of this test whose observed exit code differs from the
expected exit code. -/
def crashes_count (results : List TestResultRow) (test_id : ℕ) : ℕ :=
  (results.filter fun r => decide (r.test_id = test_id ∧ r.exit_code ≠ r.expected_rc)).length

/-- The `results` count of `progress_type_request` (controllers.py lines
942-951): result files of this test with a non-null got whose regression test
has expected exit code 0 (the `results_zero_rc` subquery). -/
def zero_rc_mismatch_count (files : List TestResultFileRow)
    (rts : List RegressionTestRow) (test_id : ℕ) : ℕ :=
  (files.filter fun f => decide (f.test_id = test_id
    ∧ f.regression_test_id ∈ ((rts.filter fun rt => decide (rt.expected_rc = 0)).map
        RegressionTestRow.id)
    ∧ f.got.isSome)).length

/-- Embedding of the outcome computation for a `completed` test
(controllers.py lines 931-961): failure when `crashes > 0 or results > 0`,
success otherwise. -/
def completed_outcome (results : List TestResultRow) (files : List TestResultFileRow)
    (rts : List RegressionTestRow) (test_id : ℕ) : Status :=
  if 0 < crashes_count results test_id ∨ 0 < zero_rc_mismatch_count files rts test_id then
    Status.failure
  else
    Status.success

/-- C5: a completed test's reported outcome is failure exactly when some
result of the test has an observed exit code different from its expected exit
code, or some result file of the test has a non-null got and belongs to a
regression case whose expected exit code is 0; the outcome is success exactly
otherwise. -/
theorem C5_completed_outcome (results : List TestResultRow)
    (files : List TestResultFileRow) (rts : List RegressionTestRow) (test_id : ℕ) :
    (completed_outcome results files rts test_id = Status.failure
      ↔ (∃ r ∈ results, r.test_id = test_id ∧ r.exit_code ≠ r.expected_rc)
        ∨ (∃ f ∈ files, f.test_id = test_id ∧ f.got.isSome
            ∧ ∃ rt ∈ rts, rt.id = f.regression_test_id ∧ rt.expected_rc = 0))
    ∧ (completed_outcome results files rts test_id = Status.success
      ↔ ¬((∃ r ∈ results, r.test_id = test_id ∧ r.exit_code ≠ r.expected_rc)
        ∨ (∃ f ∈ files, f.test_id = test_id ∧ f.got.isSome
            ∧ ∃ rt ∈ rts, rt.id = f.regression_test_id ∧ rt.expected_rc = 0))) := by
  have hcrash : 0 < crashes_count results test_id
      ↔ ∃ r ∈ results, r.test_id = test_id ∧ r.exit_code ≠ r.expected_rc := by
    unfold crashes_count
    rw [List.length_pos]
    constructor
    · intro h
      obtain ⟨r, hr⟩ := List.exists_mem_of_ne_nil _ h
      have hr2 := List.mem_filter.mp hr
      refine ⟨r, hr2.1, ?_⟩
      simpa using hr2.2
    · rintro ⟨r, hr, hcond⟩
      intro hnil
      have : r ∈ (results.filter fun r =>
          decide (r.test_id = test_id ∧ r.exit_code ≠ r.expected_rc)) :=
        List.mem_filter.mpr ⟨hr, by simpa using hcond⟩
      rw [hnil] at this
      exact absurd this (by simp)
  have hmm : 0 < zero_rc_mismatch_count files rts test_id
      ↔ ∃ f ∈ files, f.test_id = test_id ∧ f.got.isSome
          ∧ ∃ rt ∈ rts, rt.id = f.regression_test_id ∧ rt.expected_rc = 0 := by
    unfold zero_rc_mismatch_count
    rw [List.length_pos]
    constructor
    · intro h
      obtain ⟨f, hf⟩ := List.exists_mem_of_ne_nil _ h
      have hf2 := List.mem_filter.mp hf
      have hf3 : f.test_id = test_id
          ∧ f.regression_test_id ∈ ((rts.filter fun rt => decide (rt.expected_rc = 0)).map
              RegressionTestRow.id)
          ∧ f.got.isSome := by simpa using hf2.2
      obtain ⟨rt, hrtmem, hrtid⟩ := List.mem_map.mp hf3.2.1
      have hrt2 := List.mem_filter.mp hrtmem
      refine ⟨f, hf2.1, hf3.1, hf3.2.2, rt, hrt2.1, hrtid, by simpa using hrt2.2⟩
    · rintro ⟨f, hf, h1, h2, rt, hrt, h3, h4⟩
      intro hnil
      have hmem : f ∈ (files.filter fun f => decide (f.test_id = test_id
          ∧ f.regression_test_id ∈ ((rts.filter fun rt => decide (rt.expected_rc = 0)).map
              RegressionTestRow.id)
          ∧ f.got.isSome)) := by
        refine List.mem_filter.mpr ⟨hf, ?_⟩
        have hrtmem : f.regression_test_id
            ∈ ((rts.filter fun rt => decide (rt.expected_rc = 0)).map
                RegressionTestRow.id) :=
          List.mem_map.mpr ⟨rt, List.mem_filter.mpr ⟨hrt, by simpa using h4⟩, h3⟩
        simp [h1, h2, hrtmem]
      rw [hnil] at hmem
      exact absurd hmem (by simp)
  unfold completed_outcome
  by_cases hcond : 0 < crashes_count results test_id
      ∨ 0 < zero_rc_mismatch_count files rts test_id
  · rw [if_pos hcond]
    constructor
    · simp only [true_iff]
      rcases hcond with h | h
      · exact Or.inl (hcrash.mp h)
      · exact Or.inr (hmm.mp h)
    · constructor
      · intro h
        exact absurd h (by simp)
      · intro h
        exfalso
        rcases hcond with h2 | h2
        · exact h (Or.inl (hcrash.mp h2))
        · exact h (Or.inr (hmm.mp h2))
  · rw [if_neg hcond]
    constructor
    · constructor
      · intro h
        exact absurd h (by simp)
      · intro h
        exfalso
        rcases h with h2 | h2
        · exact hcond (Or.inl (hcrash.mpr h2))
        · exact hcond (Or.inr (hmm.mpr h2))
    · simp only [true_iff]
      intro h
      rcases h with h2 | h2
      · exact hcond (Or.inl (hcrash.mpr h2))
      · exact hcond (Or.inr (hmm.mpr h2))

/-- A Python `datetime` value as far as the warm-path average needs it: the
timezone-naive instant in seconds, plus an optional timezone annotation that
`replace(tzinfo=None)` strips without changing the naive instant. -/
structure PyDatetime where
  naive_seconds : ℤ
  tzinfo : Option ℤ
deriving DecidableEq, Repr

/-- The timezone-stripping performed by `progress_type_request`
(controllers.py lines 903-907): `t.replace(tzinfo=None)` when `t.tzinfo` is
not `None`, otherwise `t` unchanged. -/
def strip_tz (d : PyDatetime) : PyDatetime :=
  if d.tzinfo.isSome then { d with tzinfo := none } else d

/-- Embedding of the warm path of the `average_time` update (controllers.py
lines 894-913), entered when a prior average row exists: `number_test` is
`TestResult.query.count() / RegressionTest.query.count()` (true division),
the timezone-stripped progress span `end - start` is added to
`float(current_average.value) * (number_test - 1)`, and the stored value is
the Python float floor-division `updated_average // number_test`. -/
def warm_avg_update (current_average : ℚ) (all_results : ℕ)
    (regression_test_count : ℕ) (start_time end_time : PyDatetime) : ℤ :=
  let number_test : ℚ := (all_results : ℚ) / (regression_test_count : ℚ)
  let updated_average : ℚ := current_average * (number_test - 1)
  let e := strip_tz end_time
  let s := strip_tz start_time
  let last_running_test : ℚ := ((e.naive_seconds - s.naive_seconds : ℤ) : ℚ)
  ⌊(updated_average + last_running_test) / number_test⌋

/-- C6: with a prior average present, the stored average becomes the floor of
`(old_avg * (n - 1) + span) / n` where `n` is the cumulative result count
divided by the catalog size (not a true per-key counter) and `span` is the
just-finished test's start-to-end progress span computed on the naive
timestamps, with any timezone annotations stripped and irrelevant; nothing
else enters the update. -/
theorem C6_warm_average (current_average : ℚ) (all_results : ℕ)
    (regression_test_count : ℕ) (s e : ℤ) (tz1 tz2 : Option ℤ) :
    warm_avg_update current_average all_results regression_test_count ⟨s, tz1⟩ ⟨e, tz2⟩
      = ⌊(current_average * ((all_results : ℚ) / (regression_test_count : ℚ) - 1)
            + ((e - s : ℤ) : ℚ)) / ((all_results : ℚ) / (regression_test_count : ℚ))⌋
    ∧ warm_avg_update current_average all_results regression_test_count ⟨s, tz1⟩ ⟨e, tz2⟩
      = warm_avg_update current_average all_results regression_test_count
          ⟨s, none⟩ ⟨e, none⟩ := by
  constructor
  · cases tz1 <;> cases tz2 <;> simp [warm_avg_update, strip_tz]
  · cases tz1 <;> cases tz2 <;> simp [warm_avg_update, strip_tz]

/-- A `Test` row as acted on by the PR-closed sweep of `start_ci`: identity,
pull-request number, commit hash, platform, and its progress events. -/
structure PrTestRow where
  id : ℕ
  pr_nr : ℕ
  commit : String
  platform : TestPlatform
  progress : List ProgressEntry
deriving DecidableEq, Repr

/-- Per-test action of the PR-closed sweep (controllers.py lines 631-643):
`if len(test.progress) > 0: continue`, else append a canceled "PR closed"
progress event. -/
def pr_closed_update (pr_nr : ℕ) (t : PrTestRow) : PrTestRow :=
  if t.pr_nr = pr_nr ∧ t.progress = [] then
    { t with progress := t.progress ++ [⟨TestStatus.canceled, "PR closed"⟩] }
  else t

/-- Embedding of the PR-closed branch of `start_ci` (controllers.py lines
628-643): for every test of this PR that has no progress events, a canceled
"PR closed" event is appended and a failure commit status is posted
(`repository.statuses(test.commit).post(state=Status.FAILURE, ...)`); the
second component collects the posted statuses. -/
def pr_closed_handler (tests : List PrTestRow) (pr_nr : ℕ) :
    List PrTestRow × List (String × Status) :=
  (tests.map (pr_closed_update pr_nr),
   (tests.filter fun t => decide (t.pr_nr = pr_nr ∧ t.progress = [])).map
     fun t => (t.commit, Status.failure))

/-- C9: the PR-closed sweep touches exactly the tests of the closed PR that
have zero progress events — each such test gets one canceled "PR closed"
event and one posted failure status; every other test (other PR, or any
progress already recorded) is returned unchanged at its position, and every
posted status belongs to a zero-progress test of this PR. -/
theorem C9_pr_closed_frame (tests : List PrTestRow) (pr_nr : ℕ) :
    (pr_closed_handler tests pr_nr).1.length = tests.length
    ∧ (∀ (i : ℕ) (t : PrTestRow), tests[i]? = some t →
        (t.pr_nr ≠ pr_nr ∨ t.progress ≠ []) →
        (pr_closed_handler tests pr_nr).1[i]? = some t)
    ∧ (∀ (i : ℕ) (t : PrTestRow), tests[i]? = some t →
        t.pr_nr = pr_nr → t.progress = [] →
        (pr_closed_handler tests pr_nr).1[i]?
            = some { t with progress := [⟨TestStatus.canceled, "PR closed"⟩] }
          ∧ (t.commit, Status.failure) ∈ (pr_closed_handler tests pr_nr).2)
    ∧ (∀ p ∈ (pr_closed_handler tests pr_nr).2,
        ∃ t ∈ tests, t.pr_nr = pr_nr ∧ t.progress = []
          ∧ p = (t.commit, Status.failure)) := by
  refine ⟨by simp [pr_closed_handler], ?_, ?_, ?_⟩
  · intro i t hi hcond
    show (tests.map (pr_closed_update pr_nr))[i]? = some t
    rw [List.getElem?_map, hi]
    have hne : ¬(t.pr_nr = pr_nr ∧ t.progress = []) := by
      rcases hcond with h | h
      · exact fun h2 => h h2.1
      · exact fun h2 => h h2.2
    simp only [Option.map_some']
    rw [pr_closed_update, if_neg hne]
  · intro i t hi h1 h2
    constructor
    · show (tests.map (pr_closed_update pr_nr))[i]? = some _
      rw [List.getElem?_map, hi]
      simp only [Option.map_some']
      rw [pr_closed_update, if_pos ⟨h1, h2⟩, h2]
      rfl
    · show (t.commit, Status.failure)
          ∈ (tests.filter fun t => decide (t.pr_nr = pr_nr ∧ t.progress = [])).map
              fun t => (t.commit, Status.failure)
      refine List.mem_map.mpr ⟨t, List.mem_filter.mpr ⟨?_, by simp [h1, h2]⟩, rfl⟩
      obtain ⟨hlt, rfl⟩ := List.getElem?_eq_some.mp hi
      exact List.getElem_mem hlt
  · intro p hp
    obtain ⟨t, htmem, hpt⟩ := List.mem_map.mp hp
    have ht2 := List.mem_filter.mp htmem
    have hc : t.pr_nr = pr_nr ∧ t.progress = [] := by simpa using ht2.2
    exact ⟨t, ht2.1, hc.1, hc.2, hpt.symm⟩

theorem C9_witness :
    (pr_closed_handler [⟨1, 5, "c1", TestPlatform.linux, []⟩] 5).1[0]?
        = some ⟨1, 5, "c1", TestPlatform.linux,
            [⟨TestStatus.canceled, "PR closed"⟩]⟩
      ∧ ("c1", Status.failure) ∈ (pr_closed_handler [⟨1, 5, "c1", TestPlatform.linux, []⟩] 5).2 :=
  (C9_pr_closed_frame [⟨1, 5, "c1", TestPlatform.linux, []⟩] 5).2.2.1 0
    ⟨1, 5, "c1", TestPlatform.linux, []⟩ rfl rfl rfl

/-- A `RegressionTestOutput` row (`mod_regression.models`): id and the
correct (expected) hash. -/
structure RegressionTestOutputRow where
  id : ℕ
  correct : String
deriving DecidableEq, Repr

/-- Embedding of `equality_type_request` (controllers.py lines 982-1006):
look up the `RegressionTestOutput` with the reported `test_file_id`; when
none exists only a log line is written and no result file is stored; when one
exists a `TestResultFile(test.id, test_id, rto.id, rto.correct)` row (null
got, i.e. a recorded equality) is added. -/
def equality_type_request (rtos : List RegressionTestOutputRow)
    (files : List TestResultFileRow) (test_id : ℕ) (regression_test_id : ℕ)
    (test_file_id : ℕ) : List TestResultFileRow :=
  match (rtos.filter fun r => decide (r.id = test_file_id)).head? with
  | none => files
  | some rto => files ++ [⟨test_id, regression_test_id, rto.id, rto.correct, none⟩]

/-- The equality arm of `progress_reporter` (controllers.py lines 748-760 and
778-780): with a valid token the equality handler runs and the endpoint
answers "OK" unconditionally (its return value is ignored); with an invalid
token nothing runs and the endpoint answers "FAIL". -/
def progress_reporter_equality (token_ok : Bool) (rtos : List RegressionTestOutputRow)
    (files : List TestResultFileRow) (test_id : ℕ) (regression_test_id : ℕ)
    (test_file_id : ℕ) : String × List TestResultFileRow :=
  if token_ok then
    ("OK", equality_type_request rtos files test_id regression_test_id test_file_id)
  else
    ("FAIL", files)

/-- C10: an authenticated equality report whose `test_file_id` matches no
known regression-test output stores no result file and changes nothing, yet
the endpoint still answers "OK"; the response is "OK" for every authenticated
equality report, so the dropped report is indistinguishable from a recorded
equality. -/
theorem C10_unknown_output_silent (rtos : List RegressionTestOutputRow)
    (files : List TestResultFileRow) (test_id : ℕ) (regression_test_id : ℕ)
    (test_file_id : ℕ) :
    ((∀ r ∈ rtos, r.id ≠ test_file_id) →
      progress_reporter_equality true rtos files test_id regression_test_id test_file_id
        = ("OK", files))
    ∧ (progress_reporter_equality true rtos files test_id regression_test_id
        test_file_id).1 = "OK" := by
  constructor
  · intro hall
    have hnil : (rtos.filter fun r => decide (r.id = test_file_id)) = [] :=
      List.filter_eq_nil_iff.mpr (fun r hr => by simpa using hall r hr)
    unfold progress_reporter_equality equality_type_request
    rw [if_pos rfl]
    simp only [hnil, List.head?_nil]
  · unfold progress_reporter_equality
    rw [if_pos rfl]

theorem C10_witness :
    progress_reporter_equality true [⟨4, "corr"⟩] [] 1 2 9 = ("OK", []) :=
  (C10_unknown_output_silent [⟨4, "corr"⟩] [] 1 2 9).1 (by decide)

end SamplePlatform
